import Mathlib

/-!
# Verification of the configuration-export action

Shallow embedding of the commit-range export pipeline implemented in
`src/unnamed/part_000` (the full entry point, whose `run` also appears in
reduced form in `src/src/main.ts`).  The pipeline validates that the merge
base of a pull request's base and head equals the base, initializes a
mirror repository, performs a seed export of the base revision, enumerates
the first-parent range with `git rev-list --reverse --first-parent
base...head`, and re-exports each enumerated revision.

The `GitCommandManager` and the git / GitHub-runner semantics it wraps are
code of this repository that is not under `src/` (only its callers are);
those parts are modelled from the spec and are marked `Modelled from the
spec:` in their doc comments.  Every external command's outcome is a field
of a `World` record, so the pipeline functions are total and executable;
real git behaviour enters theorems only through hypotheses on the world.
-/

namespace ConfigExport

/-! ## JavaScript string plumbing

`getCommitList` does `output.stdout.trim().split('\n')` (part_000 line 200)
and `getPrettyCommitMessage` trims two command outputs (line 188).  These
are modelled structurally over `List Char` so that concrete runs evaluate
inside the kernel.  JavaScript's `split` on an empty string yields `[""]`,
and the model reproduces that. -/

/-- Whitespace characters removed by JavaScript `String.prototype.trim`
(restricted to the ones git output can contain). -/
def isWsChar (c : Char) : Bool :=
  c = ' ' || c = '\n' || c = '\t' || c = '\r'

/-- Model of JavaScript `trim()`: drop whitespace from both ends. -/
def jsTrim (s : String) : String :=
  String.mk (((s.data.dropWhile isWsChar).reverse.dropWhile isWsChar).reverse)

/-- Split a character list at every newline.  The empty list yields one
empty group, matching JavaScript `"".split('\n') = [""]`. -/
def splitNlChars : List Char → List (List Char)
  | [] => [[]]
  | c :: rest =>
    match splitNlChars rest with
    | [] => [[]]
    | g :: gs => if c = '\n' then [] :: g :: gs else (c :: g) :: gs

/-- Model of JavaScript `split('\n')`. -/
def jsSplitNl (s : String) : List String :=
  (splitNlChars s.data).map String.mk

/-! ## Pipeline data model -/

/-- External side effects the pipeline performs, in program order.  Query
commands that only read state (`rev-parse HEAD` on the mirror, the rev-list
enumeration's raw output) carry their own events where a claim needs them. -/
inductive Event where
  | setupSource
  | fetchEv (base head : String)
  | mergeBaseQ (base head : String)
  | mirrorInit
  | prettyEv (rev : String)
  | clearStep (n : Nat)
  | transformStep (n : Nat)
  | stageStep (n : Nat)
  | commitStep (n : Nat) (msg : String)
  | checkoutEv (rev : String)
  | revListEv (base head : String)
  | removeSourceDir
  | removeMirrorDir
  deriving DecidableEq, Repr

/-- How the `run` entry point ends: `core.setFailed` (non-zero exit),
an informational early return (zero exit), or normal completion. -/
inductive Outcome where
  | failed (msg : String)
  | earlyOut (msg : String)
  | success (info : String)
  deriving DecidableEq, Repr

/-- The pull-request payload fields `run` reads.  JavaScript's falsy check
`!pr_context.base.sha` is modelled as equality with the empty string. -/
structure PRContext where
  merged : Bool
  baseSha : String
  headSha : String
  deriving DecidableEq, Repr

/-- One commit of the mirror repository: the source revision whose export
it records and the commit message it was created with.  The mirror history
is a list of these, oldest first; the model appends to one branch, so the
history is linear by construction. -/
structure MirrorCommit where
  srcRev : String
  message : String
  deriving DecidableEq, Repr

/-- Modelled from the spec: outcomes of every external command the pipeline
issues through `GitCommandManager`, `io`, and `exec` (none of which are
under `src/`).  State-changing commands are fallible (`Except`), mirroring
`execGit`'s throw-on-nonzero behaviour; read-only queries on the source
tree (`rev-parse --abbrev-ref HEAD`, `log --oneline -1`, the mirror HEAD
sha) are modelled as total output oracles indexed by the revision that is
checked out, since no claim turns on their failure and a failure there
would propagate exactly like any other thrown step.  Per-export commands
are indexed by the export invocation number (0 = seed). -/
structure World where
  setupRes : Except String Unit
  fetchRes : Except String Unit
  mergeBaseRes : Except String String
  initRes : Except String Unit
  python2Path : Option String
  pythonPath : Except String String
  rmRes : Nat → Except String Unit
  transformRes : Nat → Except String Unit
  addRes : Nat → Except String Unit
  commitRes : Nat → Except String Unit
  checkoutRes : String → Except String Unit
  abbrevRef : String → String
  logOneline : String → String
  abbrevId : String → String
  firstLine : String → String
  revListStdout : String
  mirrorHeadSha : Nat → String
  removeSourceRes : Except String Unit
  removeMirrorRes : Except String Unit

/-- Result of the main phase: outcome, the ordered external-effect trace,
and the mirror repository's state — `none` while it was never initialized
(untouched), `some ms` once `initExportRepo` ran, with `ms` the commits
created so far. -/
structure RunResult where
  outcome : Outcome
  events : List Event
  mirror : Option (List MirrorCommit)
  deriving DecidableEq, Repr

/-! ## The pipeline functions (translated from part_000) -/

/-- Error message of the merge-base gate (part_000 lines 58-60). -/
def mergeBaseFailMsg (base head m : String) : String :=
  "Merge base between PR Base (" ++ base ++ ") and PR head (" ++ head ++
    ") is different from PR base current head (found merge-base " ++ m ++
    "). This is unsupported at the moment, please rebase your branch."

/-- The python lookup of `exportConf` (lines 216-222): try `which python2`,
fall back to `which python`; either may fail. -/
def pythonLookup (w : World) : Except String String :=
  match w.python2Path with
  | some p => Except.ok p
  | none => w.pythonPath

/-- `getPrettyCommitMessage` (lines 174-189): the trimmed output of
`rev-parse --abbrev-ref HEAD`, a literal " - ", and the trimmed output of
`log --no-decorate --oneline -1`, both read from the source tree at the
revision `rev` that is checked out when it runs. -/
def getPrettyCommitMessage (w : World) (rev : String) : String :=
  jsTrim (w.abbrevRef rev) ++ " - " ++ jsTrim (w.logOneline rev)

/-- `getCommitList` (lines 191-201): split the trimmed stdout of
`git rev-list --reverse --first-parent base...head` on newlines. -/
def getCommitList (w : World) : List String :=
  jsSplitNl (jsTrim w.revListStdout)

/-- `exportConf` (lines 203-248): clear the mirror tree
(`git rm --quiet --recursive --force -- '*'`), locate python, run the
exporter against the source tree, stage everything (`git add --force -- '*'`),
and commit with `msg`.  Each step runs only if all previous ones succeeded;
a failing step's exception aborts the function.  An event records each
invoked command, including ones that then failed. -/
def exportConf (w : World) (n : Nat) (msg : String) :
    Except String Unit × List Event :=
  match w.rmRes n with
  | Except.error e => (Except.error e, [Event.clearStep n])
  | Except.ok _ =>
    match pythonLookup w with
    | Except.error e => (Except.error e, [Event.clearStep n])
    | Except.ok _ =>
      match w.transformRes n with
      | Except.error e => (Except.error e, [Event.clearStep n, Event.transformStep n])
      | Except.ok _ =>
        match w.addRes n with
        | Except.error e =>
            (Except.error e,
             [Event.clearStep n, Event.transformStep n, Event.stageStep n])
        | Except.ok _ =>
          match w.commitRes n with
          | Except.error e =>
              (Except.error e,
               [Event.clearStep n, Event.transformStep n, Event.stageStep n,
                Event.commitStep n msg])
          | Except.ok _ =>
              (Except.ok (),
               [Event.clearStep n, Event.transformStep n, Event.stageStep n,
                Event.commitStep n msg])

/-- The events of a fully successful export invocation. -/
def exportEvsOk (n : Nat) (msg : String) : List Event :=
  [Event.clearStep n, Event.transformStep n, Event.stageStep n,
   Event.commitStep n msg]

/-- The per-revision loop of `run` (lines 81-89): check out the revision,
derive its message from the now-checked-out source tree, export.  Returns
the loop's result, the mirror commits it created (oldest first), and its
event trace.  `n` numbers export invocations (the seed was 0). -/
def runLoop (w : World) : List String → Nat →
    Except String Unit × List MirrorCommit × List Event
  | [], _ => (Except.ok (), [], [])
  | c :: rest, n =>
    match w.checkoutRes c with
    | Except.error e => (Except.error e, [], [Event.checkoutEv c])
    | Except.ok _ =>
      match exportConf w n (getPrettyCommitMessage w c) with
      | (Except.error e, eevs) =>
          (Except.error e, [],
           Event.checkoutEv c :: Event.prettyEv c :: eevs)
      | (Except.ok _, eevs) =>
        match runLoop w rest (n + 1) with
        | (res, ms, evs2) =>
            (res, MirrorCommit.mk c (getPrettyCommitMessage w c) :: ms,
             (Event.checkoutEv c :: Event.prettyEv c :: eevs) ++ evs2)

/-- The events of a fully successful loop over `cs`, starting at export
invocation `n`. -/
def loopEvsOk (w : World) : List String → Nat → List Event
  | [], _ => []
  | c :: rest, n =>
    (Event.checkoutEv c :: Event.prettyEv c ::
       exportEvsOk n (getPrettyCommitMessage w c)) ++ loopEvsOk w rest (n + 1)

/-- The events accumulated up to and including mirror initialization. -/
def preEvs (pr : PRContext) : List Event :=
  [Event.setupSource, Event.fetchEv pr.baseSha pr.headSha,
   Event.mergeBaseQ pr.baseSha pr.headSha, Event.mirrorInit]

/-- The export phase of `run` (part_000 lines 66-95), entered after the
mirror repository was initialized: seed export of the base revision
(whose message is derived from the source tree as checked out — at the
base, since `sourceSettings.commit = pr_context.base.sha`), then the range
enumeration and the per-revision loop, then the final informational
message built from the mirror's first and last HEAD shas. -/
def runExports (w : World) (pr : PRContext) : RunResult :=
  match exportConf w 0 (getPrettyCommitMessage w pr.baseSha) with
  | (Except.error e, eevs) =>
      ⟨Outcome.failed e, preEvs pr ++ Event.prettyEv pr.baseSha :: eevs, some []⟩
  | (Except.ok _, eevs) =>
    match runLoop w (getCommitList w) 1 with
    | (Except.error e, ms, levs) =>
        ⟨Outcome.failed e,
         preEvs pr ++ Event.prettyEv pr.baseSha ::
           (eevs ++ Event.revListEv pr.baseSha pr.headSha :: levs),
         some (MirrorCommit.mk pr.baseSha
                 (getPrettyCommitMessage w pr.baseSha) :: ms)⟩
    | (Except.ok _, ms, levs) =>
        ⟨Outcome.success
           ("Finished config export. " ++ w.mirrorHeadSha 1 ++
            " to " ++ w.mirrorHeadSha (ms.length + 1)),
         preEvs pr ++ Event.prettyEv pr.baseSha ::
           (eevs ++ Event.revListEv pr.baseSha pr.headSha :: levs),
         some (MirrorCommit.mk pr.baseSha
                 (getPrettyCommitMessage w pr.baseSha) :: ms)⟩

/-- `run` (part_000 lines 16-99).  Guards: missing PR context and missing
boundary shas call `core.setFailed`; an already-merged PR logs and returns
(zero exit).  Then, inside the try/catch whose handler is `setFailed`:
set up the source tree at the base revision, fetch both boundary revisions,
recompute the merge base and gate on it equalling the base, initialize the
mirror repository, and hand over to the export phase. -/
def run (w : World) (prCtx : Option PRContext) : RunResult :=
  match prCtx with
  | none => ⟨Outcome.failed "PR context is unset. Abort.", [], none⟩
  | some pr =>
    if pr.merged then
      ⟨Outcome.earlyOut "PR already merged. Early out.", [], none⟩
    else if pr.baseSha = "" then
      ⟨Outcome.failed "Failed to retrieve PR base from context. Abort.", [], none⟩
    else if pr.headSha = "" then
      ⟨Outcome.failed "Failed to retrieve PR head from context. Abort.", [], none⟩
    else
      match w.setupRes with
      | Except.error e => ⟨Outcome.failed e, [Event.setupSource], none⟩
      | Except.ok _ =>
        match w.fetchRes with
        | Except.error e =>
            ⟨Outcome.failed e,
             [Event.setupSource, Event.fetchEv pr.baseSha pr.headSha], none⟩
        | Except.ok _ =>
          match w.mergeBaseRes with
          | Except.error e =>
              ⟨Outcome.failed e,
               [Event.setupSource, Event.fetchEv pr.baseSha pr.headSha,
                Event.mergeBaseQ pr.baseSha pr.headSha], none⟩
          | Except.ok m =>
            if m ≠ pr.baseSha then
              ⟨Outcome.failed (mergeBaseFailMsg pr.baseSha pr.headSha m),
               [Event.setupSource, Event.fetchEv pr.baseSha pr.headSha,
                Event.mergeBaseQ pr.baseSha pr.headSha], none⟩
            else
              match w.initRes with
              | Except.error e =>
                  ⟨Outcome.failed e,
                   [Event.setupSource, Event.fetchEv pr.baseSha pr.headSha,
                    Event.mergeBaseQ pr.baseSha pr.headSha, Event.mirrorInit],
                   some []⟩
              | Except.ok _ => runExports w pr

/-- One best-effort removal of `cleanup` (lines 101-114): the removal is
attempted; a failure is caught and becomes a warning string. -/
def tryRemove (res : Except String Unit) (ev : Event) :
    List Event × List String :=
  match res with
  | Except.ok _ => ([ev], [])
  | Except.error e => ([ev], [e])

/-- `cleanup` (lines 101-114): remove the source working tree, then the
mirror directory, each in its own try/catch; failures only accumulate as
warnings, and the function always returns normally. -/
def cleanup (w : World) : List Event × List String :=
  match tryRemove w.removeSourceRes Event.removeSourceDir,
        tryRemove w.removeMirrorRes Event.removeMirrorDir with
  | (evs1, ws1), (evs2, ws2) => (evs1 ++ evs2, ws1 ++ ws2)

/-- Result of one invocation of the entry point (lines 250-257): the
`IsPost` state selects the main phase (`run`) or the post phase (`cleanup`). -/
inductive PhaseResult where
  | mainPhase (r : RunResult)
  | postPhase (evs : List Event) (warnings : List String)
  deriving DecidableEq, Repr

/-- The entry dispatch (lines 250-257): `if (!stateHelper.IsPost) run()
else cleanup()`. -/
def entry (w : World) (isPost : Bool) (prCtx : Option PRContext) : PhaseResult :=
  if isPost then
    PhaseResult.postPhase (cleanup w).1 (cleanup w).2
  else
    PhaseResult.mainPhase (run w prCtx)

/-- Modelled from the spec: the Actions runner (not under `src/`) executes
the entry point once with `IsPost` unset (main phase) and then exactly once
with `IsPost` set (post phase), after the main sequence and regardless of
its outcome. -/
def lifecycle (w : World) (prCtx : Option PRContext) : PhaseResult × PhaseResult :=
  (entry w false prCtx, entry w true prCtx)

/-! ## The source repository's commit graph

Modelled from the spec: the enumeration and merge-base commands the
pipeline issues (`git rev-list --reverse --first-parent base...head`,
`git merge-base`) run inside `GitCommandManager`, which is not under
`src/`.  Commits are natural numbers; `parents c` lists `c`'s parents,
first parent first, and every parent is strictly smaller than its child —
ids double as commit timestamps (a parent is older than its child), which
is what git's default date order sorts by.  The spec's glossary defines the
merge base "along first-parent lineage", and first-parent traversal is
exactly what `--first-parent` restricts the walk to, so reachability here
always follows the first-parent chain. -/

structure Repo where
  parents : Nat → List Nat
  parents_lt : ∀ c p, p ∈ parents c → p < c

/-- The first parent of a commit, if any. -/
def Repo.firstParent (r : Repo) (c : Nat) : Option Nat :=
  (r.parents c).head?

/-- Fuel-driven first-parent chain, structural so that concrete repos
evaluate in the kernel.  `parents_lt` guarantees fuel `c + 1` suffices. -/
def fpChainFuel (r : Repo) : Nat → Nat → List Nat
  | 0, _ => []
  | fuel + 1, c =>
    c :: (match r.firstParent c with
          | none => []
          | some p => fpChainFuel r fuel p)

/-- The first-parent chain of a commit: the commit itself followed by the
chain of its first parent, down to a root. -/
def Repo.fpChain (r : Repo) (c : Nat) : List Nat :=
  fpChainFuel r (c + 1) c

/-- Modelled from the spec: `git merge-base base head` along first-parent
lineage (the spec's glossary sense) — the newest commit on `base`'s chain
that also lies on `head`'s chain. -/
def Repo.mergeBaseFP (r : Repo) (a b : Nat) : Option Nat :=
  (r.fpChain a).find? (fun c => decide (c ∈ r.fpChain b))

/-- Insert into an ascending list. -/
def insertAsc (x : Nat) : List Nat → List Nat
  | [] => [x]
  | y :: ys => if x ≤ y then x :: y :: ys else y :: insertAsc x ys

/-- Insertion sort, ascending. -/
def sortAsc : List Nat → List Nat
  | [] => []
  | x :: xs => insertAsc x (sortAsc xs)

/-- Modelled from the spec and the git manual: `git rev-list --reverse
--first-parent base...head` — the symmetric difference of the two
first-parent chains, oldest (smallest id) first. -/
def Repo.revListThreeDotFP (r : Repo) (base head : Nat) : List Nat :=
  sortAsc ((r.fpChain head).filter (fun c => decide (c ∉ r.fpChain base)) ++
           (r.fpChain base).filter (fun c => decide (c ∉ r.fpChain head)))

/-- Modelled from the spec: the enumeration contract `listFirstParentRange`
in the spec's words — the revisions strictly following first-parent lineage
from `base` (exclusive) to `head` (inclusive), oldest first.  Stated for
comparison with `revListThreeDotFP`, which is what the code's rev-list
invocation computes. -/
def Repo.listFirstParentRange (r : Repo) (base head : Nat) : List Nat :=
  ((r.fpChain head).takeWhile (fun c => decide (c ≠ base))).reverse

/-! ## Concrete instances

Closed worlds and PR contexts used to instantiate the theorems below. -/

/-- A linear commit graph: every positive commit's only parent is its
predecessor, commit 0 is the root. -/
def repoLinear : Repo where
  parents := fun c => if c = 0 then [] else [c - 1]
  parents_lt := by
    intro c p h
    by_cases hc : c = 0
    · simp [hc] at h
    · simp [hc] at h
      omega

/-- Concrete sha names for the commits of `repoLinear`. -/
def shaOf : Nat → String
  | 0 => "c0"
  | 1 => "c1"
  | 2 => "c2"
  | n + 3 => "x" ++ shaOf n

/-- A world in which every external command succeeds: the source range is
`repoLinear`'s 0..2 (rev-list stdout "c1\nc2", merge base "c0"), and — as
real git does — checking out the empty string fails. -/
def wOk : World where
  setupRes := Except.ok ()
  fetchRes := Except.ok ()
  mergeBaseRes := Except.ok "c0"
  initRes := Except.ok ()
  python2Path := some "/usr/bin/python2"
  pythonPath := Except.ok "/usr/bin/python"
  rmRes := fun _ => Except.ok ()
  transformRes := fun _ => Except.ok ()
  addRes := fun _ => Except.ok ()
  commitRes := fun _ => Except.ok ()
  checkoutRes := fun c =>
    if c = "" then Except.error "fatal: empty string is not a valid pathspec"
    else Except.ok ()
  abbrevRef := fun _ => "main"
  logOneline := fun _ => "abc123 first log line"
  abbrevId := fun _ => "abc123"
  firstLine := fun _ => "first log line"
  revListStdout := "c1\nc2"
  mirrorHeadSha := fun _ => "m0"
  removeSourceRes := Except.ok ()
  removeMirrorRes := Except.ok ()

/-- The pull request for `wOk`: base c0, head c2, not merged. -/
def prOk : PRContext := ⟨false, "c0", "c2"⟩

/-- An already-merged pull request. -/
def prMerged : PRContext := ⟨true, "c0", "c2"⟩

/-- A pull request whose base and head coincide (at commit 2). -/
def prSame : PRContext := ⟨false, "c2", "c2"⟩

/-- `wOk`, but the recomputed merge base is "c1", not the claimed base. -/
def wBadBase : World := { wOk with mergeBaseRes := Except.ok "c1" }

/-- `wOk` for the base-equals-head range: rev-list prints nothing and the
merge base is the shared commit "c2". -/
def wEmptyRange : World :=
  { wOk with revListStdout := "", mergeBaseRes := Except.ok "c2" }

/-- `wOk`, but `git rm -- '*'` fails (as it does against an empty index). -/
def wRmFail : World :=
  { wOk with rmRes := fun _ => Except.error "fatal: pathspec * did not match any files" }

/-- `wOk`, but the exporter exits non-zero. -/
def wTransformFail : World :=
  { wOk with transformRes := fun _ => Except.error "exporter exited with code 1" }

/-- `wOk`, but both teardown removals fail. -/
def wCleanupFail : World :=
  { wOk with removeSourceRes := Except.error "failed to remove source tree",
             removeMirrorRes := Except.error "failed to remove mirror tree" }

/-! ## Lemmas -/

theorem Repo.firstParent_lt (r : Repo) {c p : Nat}
    (h : r.firstParent c = some p) : p < c := by
  apply r.parents_lt c p
  unfold Repo.firstParent at h
  cases hl : r.parents c with
  | nil => rw [hl] at h; simp at h
  | cons a l =>
    rw [hl] at h
    simp only [List.head?_cons, Option.some.injEq] at h
    subst h
    exact List.mem_cons_self a l

theorem fpChainFuel_congr (r : Repo) :
    ∀ f₁ f₂ c, c < f₁ → c < f₂ → fpChainFuel r f₁ c = fpChainFuel r f₂ c := by
  intro f₁
  induction f₁ with
  | zero => intro f₂ c h1 _; omega
  | succ f ih =>
    intro f₂ c h1 h2
    cases f₂ with
    | zero => omega
    | succ f' =>
      simp only [fpChainFuel, List.cons.injEq, true_and]
      cases hp : r.firstParent c with
      | none => rfl
      | some p =>
        have hpc := r.firstParent_lt hp
        exact ih f' p (by omega) (by omega)

theorem Repo.fpChain_eq (r : Repo) (c : Nat) :
    r.fpChain c = c :: (match r.firstParent c with
                        | none => []
                        | some p => r.fpChain p) := by
  show fpChainFuel r (c + 1) c = _
  simp only [fpChainFuel, List.cons.injEq, true_and]
  cases hp : r.firstParent c with
  | none => rfl
  | some p =>
    exact fpChainFuel_congr r c (p + 1) p (r.firstParent_lt hp) (Nat.lt_succ_self p)

theorem Repo.mem_fpChain_le (r : Repo) :
    ∀ c x, x ∈ r.fpChain c → x ≤ c := by
  intro c
  induction c using Nat.strong_induction_on with
  | _ c ih =>
    intro x hx
    rw [Repo.fpChain_eq] at hx
    cases hp : r.firstParent c with
    | none =>
      simp only [hp] at hx
      simp only [List.mem_singleton] at hx
      omega
    | some p =>
      simp only [hp] at hx
      rcases List.mem_cons.mp hx with h | h
      · omega
      · have h1 := ih p (r.firstParent_lt hp) x h
        have h2 := r.firstParent_lt hp
        omega

theorem Repo.self_mem_fpChain (r : Repo) (c : Nat) : c ∈ r.fpChain c := by
  rw [Repo.fpChain_eq]
  exact List.mem_cons_self _ _

theorem Repo.fpChain_head? (r : Repo) (c : Nat) :
    (r.fpChain c).head? = some c := by
  rw [Repo.fpChain_eq]
  rfl

/-- The first-parent chain is strictly descending (children are newer than
all their first-parent ancestors). -/
theorem Repo.fpChain_pairwise (r : Repo) :
    ∀ c, (r.fpChain c).Pairwise (fun a b => b < a) := by
  intro c
  induction c using Nat.strong_induction_on with
  | _ c ih =>
    rw [Repo.fpChain_eq]
    cases hp : r.firstParent c with
    | none => simp
    | some p =>
      simp only
      refine List.pairwise_cons.mpr ⟨?_, ih p (r.firstParent_lt hp)⟩
      intro b hb
      have h1 := r.mem_fpChain_le p b hb
      have h2 := r.firstParent_lt hp
      omega

/-- Consecutive elements of the chain are linked by first-parent edges. -/
theorem Repo.fpChain_chain (r : Repo) :
    ∀ c, (r.fpChain c).Chain' (fun a b => r.firstParent a = some b) := by
  intro c
  induction c using Nat.strong_induction_on with
  | _ c ih =>
    rw [Repo.fpChain_eq]
    cases hp : r.firstParent c with
    | none => simp
    | some p =>
      simp only
      refine List.chain'_cons'.mpr ⟨?_, ih p (r.firstParent_lt hp)⟩
      intro b hb
      rw [Repo.fpChain_head?] at hb
      simp only [Option.mem_def, Option.some.injEq] at hb
      subst hb
      exact hp

/-- If `b` lies on the chain of `c`, the chain of `c` is the chain of `b`
preceded by commits strictly newer than `b`. -/
theorem Repo.fpChain_split (r : Repo) :
    ∀ c b, b ∈ r.fpChain c →
      ∃ pre, r.fpChain c = pre ++ r.fpChain b ∧ ∀ x ∈ pre, b < x := by
  intro c
  induction c using Nat.strong_induction_on with
  | _ c ih =>
    intro b hb
    by_cases hbc : b = c
    · subst hbc
      exact ⟨[], by simp, by simp⟩
    · rw [Repo.fpChain_eq] at hb
      cases hp : r.firstParent c with
      | none =>
        simp only [hp, List.mem_singleton] at hb
        exact absurd hb hbc
      | some p =>
        simp only [hp] at hb
        rcases List.mem_cons.mp hb with h | h
        · exact absurd h hbc
        · obtain ⟨pre, hpre, hlt⟩ := ih p (r.firstParent_lt hp) b h
          refine ⟨c :: pre, ?_, ?_⟩
          · rw [Repo.fpChain_eq]
            simp only [hp, hpre, List.cons_append]
          · intro x hx
            rcases List.mem_cons.mp hx with rfl | hx
            · have h1 := r.mem_fpChain_le p b h
              have h2 := r.firstParent_lt hp
              omega
            · exact hlt x hx

theorem Repo.mem_of_mergeBaseFP_self (r : Repo) {b h : Nat}
    (hm : r.mergeBaseFP b h = some b) : b ∈ r.fpChain h := by
  unfold Repo.mergeBaseFP at hm
  have := List.find?_some hm
  simpa using this

theorem insertAsc_of_lt (x : Nat) :
    ∀ l : List Nat, (∀ y ∈ l, y < x) → insertAsc x l = l ++ [x] := by
  intro l
  induction l with
  | nil => intro _; rfl
  | cons y ys ih =>
    intro h
    have hy := h y (List.mem_cons_self y ys)
    simp only [insertAsc]
    rw [if_neg (by omega)]
    rw [ih (fun z hz => h z (List.mem_cons_of_mem y hz))]
    rfl

theorem sortAsc_of_desc :
    ∀ l : List Nat, l.Pairwise (fun a b => b < a) → sortAsc l = l.reverse := by
  intro l
  induction l with
  | nil => intro _; rfl
  | cons x xs ih =>
    intro h
    rcases List.pairwise_cons.mp h with ⟨hx, hxs⟩
    simp only [sortAsc]
    rw [ih hxs]
    rw [insertAsc_of_lt x xs.reverse (fun y hy => hx y (List.mem_reverse.mp hy))]
    simp

theorem takeWhile_ends_at (p : Nat → Bool) :
    ∀ (pre : List Nat) (b : Nat) (tail : List Nat),
      (∀ x ∈ pre, p x = true) → p b = false →
      (pre ++ b :: tail).takeWhile p = pre := by
  intro pre
  induction pre with
  | nil =>
    intro b tail _ hb
    simp [List.takeWhile_cons, hb]
  | cons a l ih =>
    intro b tail hall hb
    simp only [List.cons_append, List.takeWhile_cons,
      hall a (List.mem_cons_self a l), if_true, List.cons.injEq, true_and]
    exact ih b tail (fun x hx => hall x (List.mem_cons_of_mem a hx)) hb

/-- Workhorse: on a validated range (`base` on `head`'s first-parent
chain), the three-dot first-parent enumeration is exactly the
newer-than-base segment of `head`'s chain, reversed. -/
theorem Repo.revList_valid (r : Repo) {nb nh : Nat}
    (hmem : nb ∈ r.fpChain nh) :
    ∃ pre, r.fpChain nh = pre ++ r.fpChain nb ∧ (∀ x ∈ pre, nb < x) ∧
      r.revListThreeDotFP nb nh = pre.reverse ∧
      pre.Pairwise (fun a b => b < a) := by
  obtain ⟨pre, hpre, hlt⟩ := r.fpChain_split nh nb hmem
  have hpw : pre.Pairwise (fun a b => b < a) := by
    have h := r.fpChain_pairwise nh
    rw [hpre] at h
    exact (List.pairwise_append.mp h).1
  refine ⟨pre, hpre, hlt, ?_, hpw⟩
  unfold Repo.revListThreeDotFP
  have h1 : (r.fpChain nh).filter (fun c => decide (c ∉ r.fpChain nb)) = pre := by
    rw [hpre, List.filter_append]
    have hp1 : pre.filter (fun c => decide (c ∉ r.fpChain nb)) = pre := by
      apply List.filter_eq_self.mpr
      intro a ha
      simp only [decide_eq_true_eq]
      intro hmem2
      have h1 := r.mem_fpChain_le nb a hmem2
      have h2 := hlt a ha
      omega
    have hp2 : (r.fpChain nb).filter (fun c => decide (c ∉ r.fpChain nb)) = [] := by
      apply List.filter_eq_nil_iff.mpr
      intro a ha
      simp [ha]
    rw [hp1, hp2, List.append_nil]
  have h2 : (r.fpChain nb).filter (fun c => decide (c ∉ r.fpChain nh)) = [] := by
    apply List.filter_eq_nil_iff.mpr
    intro a ha
    have : a ∈ r.fpChain nh := by
      rw [hpre]; exact List.mem_append_right _ ha
    simp [this]
  rw [h1, h2, List.append_nil]
  exact sortAsc_of_desc pre hpw

/-! ## Characterizations of the pipeline functions -/

theorem exportConf_fst_ok (w : World) (n : Nat) (msg : String)
    (h : (exportConf w n msg).1 = Except.ok ()) :
    exportConf w n msg = (Except.ok (), exportEvsOk n msg) := by
  unfold exportConf at h ⊢
  cases hrm : w.rmRes n with
  | error e => simp [hrm] at h
  | ok u =>
    cases hpy : pythonLookup w with
    | error e => simp [hrm, hpy] at h
    | ok p =>
      cases htf : w.transformRes n with
      | error e => simp [hrm, hpy, htf] at h
      | ok u2 =>
        cases had : w.addRes n with
        | error e => simp [hrm, hpy, htf, had] at h
        | ok u3 =>
          cases hcm : w.commitRes n with
          | error e => simp [hrm, hpy, htf, had, hcm] at h
          | ok u4 => simp [hrm, hpy, htf, had, hcm, exportEvsOk]

theorem exportConf_rm_error (w : World) (n : Nat) (msg : String) (e : String)
    (h : w.rmRes n = Except.error e) :
    exportConf w n msg = (Except.error e, [Event.clearStep n]) := by
  unfold exportConf
  simp [h]

theorem exportConf_transform_error (w : World) (n : Nat) (msg : String)
    (e : String) (p : String)
    (hrm : w.rmRes n = Except.ok ()) (hpy : pythonLookup w = Except.ok p)
    (htf : w.transformRes n = Except.error e) :
    exportConf w n msg =
      (Except.error e, [Event.clearStep n, Event.transformStep n]) := by
  unfold exportConf
  simp [hrm, hpy, htf]

theorem exportConf_head (w : World) (n : Nat) (msg : String) :
    (exportConf w n msg).2.head? = some (Event.clearStep n) := by
  unfold exportConf
  cases hrm : w.rmRes n with
  | error e => rfl
  | ok u =>
    cases hpy : pythonLookup w with
    | error e => rfl
    | ok p =>
      cases htf : w.transformRes n with
      | error e => rfl
      | ok u2 =>
        cases had : w.addRes n with
        | error e => rfl
        | ok u3 =>
          cases hcm : w.commitRes n with
          | error e => rfl
          | ok u4 => rfl

theorem exportConf_transform_mem (w : World) (n : Nat) (msg : String)
    (h : Event.transformStep n ∈ (exportConf w n msg).2) :
    w.rmRes n = Except.ok () ∧ ∃ p, pythonLookup w = Except.ok p := by
  unfold exportConf at h
  cases hrm : w.rmRes n with
  | error e => simp [hrm] at h
  | ok u =>
    cases u
    cases hpy : pythonLookup w with
    | error e => simp [hrm, hpy] at h
    | ok p =>
      exact ⟨rfl, p, rfl⟩

theorem exportConf_stage_mem (w : World) (n : Nat) (msg : String)
    (h : Event.stageStep n ∈ (exportConf w n msg).2) :
    w.rmRes n = Except.ok () ∧ w.transformRes n = Except.ok () := by
  unfold exportConf at h
  cases hrm : w.rmRes n with
  | error e => simp [hrm] at h
  | ok u =>
    cases u
    cases hpy : pythonLookup w with
    | error e => simp [hrm, hpy] at h
    | ok p =>
      cases htf : w.transformRes n with
      | error e => simp [hrm, hpy, htf] at h
      | ok u2 =>
        cases u2
        exact ⟨rfl, rfl⟩

theorem exportConf_commit_mem (w : World) (n : Nat) (msg : String)
    (h : Event.commitStep n msg ∈ (exportConf w n msg).2) :
    w.rmRes n = Except.ok () ∧ w.transformRes n = Except.ok () ∧
      w.addRes n = Except.ok () := by
  unfold exportConf at h
  cases hrm : w.rmRes n with
  | error e => simp [hrm] at h
  | ok u =>
    cases u
    cases hpy : pythonLookup w with
    | error e => simp [hrm, hpy] at h
    | ok p =>
      cases htf : w.transformRes n with
      | error e => simp [hrm, hpy, htf] at h
      | ok u2 =>
        cases u2
        cases had : w.addRes n with
        | error e => simp [hrm, hpy, htf, had] at h
        | ok u3 =>
          cases u3
          exact ⟨rfl, rfl, rfl⟩

theorem exportConf_transform_count (w : World) (n : Nat) (msg : String) :
    (exportConf w n msg).2.count (Event.transformStep n) ≤ 1 := by
  unfold exportConf
  cases hrm : w.rmRes n with
  | error e => simp [List.count_cons]
  | ok u =>
    cases hpy : pythonLookup w with
    | error e => simp [List.count_cons]
    | ok p =>
      cases htf : w.transformRes n with
      | error e => simp [List.count_cons, List.count_nil]
      | ok u2 =>
        cases had : w.addRes n with
        | error e => simp [List.count_cons, List.count_nil]
        | ok u3 =>
          cases hcm : w.commitRes n with
          | error e => simp [List.count_cons, List.count_nil]
          | ok u4 => simp [List.count_cons, List.count_nil]

theorem runLoop_ok (w : World) :
    ∀ (cs : List String) (n : Nat) (ms : List MirrorCommit) (evs : List Event),
      runLoop w cs n = (Except.ok (), ms, evs) →
      ms = cs.map (fun c => MirrorCommit.mk c (getPrettyCommitMessage w c)) ∧
      evs = loopEvsOk w cs n ∧
      ∀ c ∈ cs, w.checkoutRes c = Except.ok () := by
  intro cs
  induction cs with
  | nil =>
    intro n ms evs h
    simp only [runLoop, Prod.mk.injEq, true_and] at h
    obtain ⟨h1, h2⟩ := h
    simp [← h1, ← h2, loopEvsOk]
  | cons c rest ih =>
    intro n ms evs h
    simp only [runLoop] at h
    cases hck : w.checkoutRes c with
    | error e => simp [hck] at h
    | ok u =>
      cases u
      simp only [hck] at h
      rcases hec : exportConf w n (getPrettyCommitMessage w c) with ⟨er, eevs⟩
      cases er with
      | error e =>
        rw [hec] at h
        simp at h
      | ok u2 =>
        cases u2
        rw [hec] at h
        rcases hrl : runLoop w rest (n + 1) with ⟨lr, lms, levs⟩
        rw [hrl] at h
        simp only [Prod.mk.injEq] at h
        obtain ⟨hres, hms, hevs⟩ := h
        have hloop : runLoop w rest (n + 1) = (Except.ok (), lms, levs) := by
          rw [hrl, hres]
        obtain ⟨hms1, hevs1, hck1⟩ := ih (n + 1) lms levs hloop
        have heevs : eevs = exportEvsOk n (getPrettyCommitMessage w c) := by
          have := exportConf_fst_ok w n (getPrettyCommitMessage w c)
            (by rw [hec])
          rw [hec] at this
          exact (Prod.mk.injEq _ _ _ _).mp this |>.2
        refine ⟨?_, ?_, ?_⟩
        · rw [← hms, hms1, List.map_cons]
        · rw [← hevs, hevs1, heevs, loopEvsOk]
        · intro c' hc'
          rcases List.mem_cons.mp hc' with rfl | hc'
          · exact hck
          · exact hck1 c' hc'

theorem run_gate (w : World) (pr : PRContext)
    (hm : pr.merged = false) (hb : pr.baseSha ≠ "") (hh : pr.headSha ≠ "")
    (hs : w.setupRes = Except.ok ()) (hf : w.fetchRes = Except.ok ())
    (hmb : w.mergeBaseRes = Except.ok pr.baseSha)
    (hinit : w.initRes = Except.ok ()) :
    run w (some pr) = runExports w pr := by
  simp [run, hm, hb, hh, hs, hf, hmb, hinit]

theorem runExports_success (w : World) (pr : PRContext) (info : String)
    (h : (runExports w pr).outcome = Outcome.success info) :
    (∃ ms levs, runLoop w (getCommitList w) 1 = (Except.ok (), ms, levs)) ∧
    (runExports w pr).mirror =
      some ((pr.baseSha :: getCommitList w).map
        (fun c => MirrorCommit.mk c (getPrettyCommitMessage w c))) ∧
    (runExports w pr).events =
      preEvs pr ++ Event.prettyEv pr.baseSha ::
        (exportEvsOk 0 (getPrettyCommitMessage w pr.baseSha) ++
         Event.revListEv pr.baseSha pr.headSha ::
           loopEvsOk w (getCommitList w) 1) := by
  unfold runExports at h ⊢
  split at h
  · simp at h
  · rename_i u eevs heq
    cases u
    split at h
    · simp at h
    · rename_i u2 lms levs heq2
      cases u2
      obtain ⟨hms1, hevs1, _⟩ :=
        runLoop_ok w (getCommitList w) 1 lms levs heq2
      have heevs : eevs = exportEvsOk 0 (getPrettyCommitMessage w pr.baseSha) := by
        have := exportConf_fst_ok w 0 (getPrettyCommitMessage w pr.baseSha)
          (by rw [heq])
        rw [heq] at this
        exact (Prod.mk.injEq _ _ _ _).mp this |>.2
      refine ⟨⟨lms, levs, heq2⟩, ?_, ?_⟩
      · simp only [heq, heq2, List.map_cons, hms1]
      · simp only [heq, heq2, heevs, hevs1]

theorem run_success_char (w : World) (pr : PRContext) (info : String)
    (h : (run w (some pr)).outcome = Outcome.success info) :
    (∃ ms levs, runLoop w (getCommitList w) 1 = (Except.ok (), ms, levs)) ∧
    (run w (some pr)).mirror =
      some ((pr.baseSha :: getCommitList w).map
        (fun c => MirrorCommit.mk c (getPrettyCommitMessage w c))) ∧
    (run w (some pr)).events =
      preEvs pr ++ Event.prettyEv pr.baseSha ::
        (exportEvsOk 0 (getPrettyCommitMessage w pr.baseSha) ++
         Event.revListEv pr.baseSha pr.headSha ::
           loopEvsOk w (getCommitList w) 1) := by
  cases hm : pr.merged with
  | true => simp [run, hm] at h
  | false =>
  by_cases hb : pr.baseSha = ""
  · simp [run, hm, hb] at h
  by_cases hh : pr.headSha = ""
  · simp [run, hm, hb, hh] at h
  cases hs : w.setupRes with
  | error e => simp [run, hm, hb, hh, hs] at h
  | ok u =>
  cases u
  cases hf : w.fetchRes with
  | error e => simp [run, hm, hb, hh, hs, hf] at h
  | ok u2 =>
  cases u2
  cases hmb : w.mergeBaseRes with
  | error e => simp [run, hm, hb, hh, hs, hf, hmb] at h
  | ok m =>
  by_cases hmeq : m = pr.baseSha
  case neg => simp [run, hm, hb, hh, hs, hf, hmb, hmeq] at h
  subst hmeq
  cases hinit : w.initRes with
  | error e => simp [run, hm, hb, hh, hs, hf, hmb, hinit] at h
  | ok u3 =>
  cases u3
  have hrun : run w (some pr) = runExports w pr :=
    run_gate w pr hm hb hh hs hf hmb hinit
  rw [hrun] at h ⊢
  exact runExports_success w pr info h

theorem revList_valid_ne (r : Repo) {nb nh : Nat}
    (hv : r.mergeBaseFP nb nh = some nb) (hne : nb ≠ nh) :
    ∃ pre, r.revListThreeDotFP nb nh = pre.reverse ∧
      pre.head? = some nh ∧ (∀ x ∈ pre, nb < x) ∧
      pre.Pairwise (fun a b => b < a) ∧
      r.fpChain nh = pre ++ r.fpChain nb := by
  have hmem := r.mem_of_mergeBaseFP_self hv
  obtain ⟨pre, hpre, hlt, hrev, hpw⟩ := r.revList_valid hmem
  refine ⟨pre, hrev, ?_, hlt, hpw, hpre⟩
  cases pre with
  | nil =>
    exfalso
    have h1 := r.fpChain_head? nh
    rw [hpre] at h1
    simp only [List.nil_append] at h1
    rw [r.fpChain_head? nb] at h1
    simp only [Option.some.injEq] at h1
    exact hne h1
  | cons a t =>
    have h1 := r.fpChain_head? nh
    rw [hpre] at h1
    simp only [List.cons_append, List.head?_cons, Option.some.injEq] at h1
    simp [h1]

/-! ## The claims -/

/-- Claim C1: the pipeline continues past validation iff the recomputed
merge base equals the claimed base.  When it does not (first conjunct),
`run` fails with exactly the message that names the base, the head and the
computed merge base, and it stops before the mirror repository is
initialized and before any export step: the mirror state is still `none`
(untouched) and the trace holds no mirror-init, clear, transform, or
commit event.  When it does (second conjunct), the run proceeds into the
export phase. -/
theorem c1_merge_base_gate (w : World) (pr : PRContext) (m : String)
    (hm : pr.merged = false) (hb : pr.baseSha ≠ "") (hh : pr.headSha ≠ "")
    (hs : w.setupRes = Except.ok ()) (hf : w.fetchRes = Except.ok ())
    (hmb : w.mergeBaseRes = Except.ok m) :
    (m ≠ pr.baseSha →
      run w (some pr) =
        ⟨Outcome.failed (mergeBaseFailMsg pr.baseSha pr.headSha m),
         [Event.setupSource, Event.fetchEv pr.baseSha pr.headSha,
          Event.mergeBaseQ pr.baseSha pr.headSha], none⟩ ∧
      (∃ s1 s2 s3 s4, mergeBaseFailMsg pr.baseSha pr.headSha m =
          s1 ++ pr.baseSha ++ s2 ++ pr.headSha ++ s3 ++ m ++ s4) ∧
      (run w (some pr)).mirror = none ∧
      Event.mirrorInit ∉ (run w (some pr)).events ∧
      (∀ n, Event.clearStep n ∉ (run w (some pr)).events) ∧
      (∀ n, Event.transformStep n ∉ (run w (some pr)).events) ∧
      (∀ n msg, Event.commitStep n msg ∉ (run w (some pr)).events)) ∧
    (m = pr.baseSha → w.initRes = Except.ok () →
      run w (some pr) = runExports w pr) := by
  constructor
  · intro hne
    have hrun : run w (some pr) =
        ⟨Outcome.failed (mergeBaseFailMsg pr.baseSha pr.headSha m),
         [Event.setupSource, Event.fetchEv pr.baseSha pr.headSha,
          Event.mergeBaseQ pr.baseSha pr.headSha], none⟩ := by
      simp [run, hm, hb, hh, hs, hf, hmb, hne]
    refine ⟨hrun,
      ⟨"Merge base between PR Base (", ") and PR head (",
       ") is different from PR base current head (found merge-base ",
       "). This is unsupported at the moment, please rebase your branch.",
       rfl⟩, ?_, ?_, ?_, ?_, ?_⟩
    · rw [hrun]
    · rw [hrun]; simp
    · intro n; rw [hrun]; simp
    · intro n; rw [hrun]; simp
    · intro n msg; rw [hrun]; simp
  · intro heq hinit
    subst heq
    exact run_gate w pr hm hb hh hs hf hmb hinit

/-- Closed instance of C1 at a world whose recomputed merge base is "c1"
while the claimed base is "c0". -/
theorem c1_merge_base_gate_witness :
    run wBadBase (some prOk) =
      ⟨Outcome.failed (mergeBaseFailMsg "c0" "c2" "c1"),
       [Event.setupSource, Event.fetchEv "c0" "c2",
        Event.mergeBaseQ "c0" "c2"], none⟩ ∧
    (run wBadBase (some prOk)).mirror = none ∧
    run wOk (some prOk) = runExports wOk prOk :=
  ⟨((c1_merge_base_gate wBadBase prOk "c1" rfl (by decide) (by decide)
      rfl rfl rfl).1 (by decide)).1,
   ((c1_merge_base_gate wBadBase prOk "c1" rfl (by decide) (by decide)
      rfl rfl rfl).1 (by decide)).2.2.1,
   (c1_merge_base_gate wOk prOk "c0" rfl (by decide) (by decide)
      rfl rfl rfl).2 rfl rfl⟩

/-- Claim C7 counterexample: with the pull-request context absent the
process does not exit zero with an informational message — it reports a
failure (`core.setFailed`, part_000 line 19). -/
theorem c7_context_absent_cex :
    run wOk none = ⟨Outcome.failed "PR context is unset. Abort.", [], none⟩ :=
  rfl

/-- Claim C7 (amended): an already-merged pull request ends the run with
zero mirror activity and a successful informational early-out; an absent
pull-request context also performs zero mirror activity but is reported as
a failure (non-zero exit), not as an informational exit. -/
theorem c7_merged_early_out (w : World) (pr : PRContext)
    (hm : pr.merged = true) :
    run w (some pr) =
      ⟨Outcome.earlyOut "PR already merged. Early out.", [], none⟩ ∧
    run w none = ⟨Outcome.failed "PR context is unset. Abort.", [], none⟩ := by
  constructor
  · simp [run, hm]
  · rfl

/-- Closed instance of C7's amended statement. -/
theorem c7_merged_early_out_witness :
    run wOk (some prMerged) =
      ⟨Outcome.earlyOut "PR already merged. Early out.", [], none⟩ ∧
    run wOk none = ⟨Outcome.failed "PR context is unset. Abort.", [], none⟩ :=
  c7_merged_early_out wOk prMerged rfl

/-- Claim C9: the code enumerates with the symmetric-difference range
`base...head` (three dots, part_000 line 197); under the pipeline's
validated precondition — the recomputed merge base equals the base — the
first-parent symmetric-difference enumeration coincides with the
base-exclusive, head-inclusive oldest-first range the spec describes. -/
theorem c9_three_dot_refinement (r : Repo) (nb nh : Nat)
    (hv : r.mergeBaseFP nb nh = some nb) :
    r.revListThreeDotFP nb nh = r.listFirstParentRange nb nh := by
  have hmem := r.mem_of_mergeBaseFP_self hv
  obtain ⟨pre, hpre, hlt, hrev, hpw⟩ := r.revList_valid hmem
  rw [hrev]
  unfold Repo.listFirstParentRange
  congr 1
  obtain ⟨tb, htb⟩ : ∃ t, r.fpChain nb = nb :: t := by
    rw [Repo.fpChain_eq]; exact ⟨_, rfl⟩
  rw [hpre, htb]
  refine (takeWhile_ends_at _ pre nb tb ?_ ?_).symm
  · intro x hx
    simp only [decide_eq_true_eq]
    exact (hlt x hx).ne'
  · simp

/-- Closed instance of C9 on the linear graph with range 0..2. -/
theorem c9_three_dot_refinement_witness :
    repoLinear.revListThreeDotFP 0 2 = repoLinear.listFirstParentRange 0 2 :=
  c9_three_dot_refinement repoLinear 0 2 (by decide)

/-- Claim C10: the clear step (`git rm --quiet --recursive --force -- '*'`)
is the first command of every export invocation, unconditionally — also
for the seed export (invocation 0) into the freshly initialized mirror,
whose index tracks nothing; a clear failure aborts the export with no
further step, so when the seed's clear command fails, the whole run fails
with that error and the mirror holds no commit. -/
theorem c10_clear_first (w : World) (n : Nat) (msg : String) :
    (exportConf w n msg).2.head? = some (Event.clearStep n) ∧
    (∀ e, w.rmRes n = Except.error e →
       exportConf w n msg = (Except.error e, [Event.clearStep n])) ∧
    (∀ pr e, pr.merged = false → pr.baseSha ≠ "" → pr.headSha ≠ "" →
       w.setupRes = Except.ok () → w.fetchRes = Except.ok () →
       w.mergeBaseRes = Except.ok pr.baseSha → w.initRes = Except.ok () →
       w.rmRes 0 = Except.error e →
       (run w (some pr)).outcome = Outcome.failed e ∧
       (run w (some pr)).mirror = some [] ∧
       (run w (some pr)).events =
         preEvs pr ++ [Event.prettyEv pr.baseSha, Event.clearStep 0]) := by
  refine ⟨exportConf_head w n msg,
    fun e he => exportConf_rm_error w n msg e he, ?_⟩
  intro pr e hm hb hh hs hf hmb hinit hrm
  have hrun : run w (some pr) = runExports w pr :=
    run_gate w pr hm hb hh hs hf hmb hinit
  have hec := exportConf_rm_error w 0 (getPrettyCommitMessage w pr.baseSha) e hrm
  rw [hrun]
  unfold runExports
  rw [hec]
  exact ⟨rfl, rfl, rfl⟩

/-- Closed instance of C10 at a world whose `git rm` fails as it does
against an empty index. -/
theorem c10_clear_first_witness :
    (exportConf wRmFail 0 "m").2.head? = some (Event.clearStep 0) ∧
    exportConf wRmFail 0 "m" =
      (Except.error "fatal: pathspec * did not match any files",
       [Event.clearStep 0]) ∧
    (run wRmFail (some prOk)).outcome =
      Outcome.failed "fatal: pathspec * did not match any files" ∧
    (run wRmFail (some prOk)).mirror = some [] :=
  ⟨(c10_clear_first wRmFail 0 "m").1,
   (c10_clear_first wRmFail 0 "m").2.1 _ rfl,
   ((c10_clear_first wRmFail 0 "m").2.2 prOk _ rfl (by decide) (by decide)
      rfl rfl rfl rfl rfl).1,
   ((c10_clear_first wRmFail 0 "m").2.2 prOk _ rfl (by decide) (by decide)
      rfl rfl rfl rfl rfl).2.1⟩

/-- Claim C3 counterexample: the range (2,2) passes validation (its merge
base is the base itself), yet the enumeration is empty and in particular
does not include the head revision — the claim's head-inclusion fails when
base equals head. -/
theorem c3_head_missing_cex :
    repoLinear.mergeBaseFP 2 2 = some 2 ∧
    repoLinear.revListThreeDotFP 2 2 = [] ∧
    2 ∉ repoLinear.revListThreeDotFP 2 2 ∧
    getCommitList wEmptyRange = [""] ∧
    "c2" ∉ getCommitList wEmptyRange := by decide

/-- Claim C3 (amended): for every valid range whose base differs from its
head, the enumeration includes the head (indeed ends with it), excludes
the base, is oldest-first (strictly ascending commit age), and walks only
first-parent edges: prepending the base, each element is the first parent
of the next. -/
theorem c3_enumeration_amended (r : Repo) (nb nh : Nat)
    (hv : r.mergeBaseFP nb nh = some nb) (hne : nb ≠ nh) :
    nh ∈ r.revListThreeDotFP nb nh ∧
    nb ∉ r.revListThreeDotFP nb nh ∧
    (r.revListThreeDotFP nb nh).Pairwise (fun a b => a < b) ∧
    (r.revListThreeDotFP nb nh).getLast? = some nh ∧
    (nb :: r.revListThreeDotFP nb nh).Chain'
      (fun a b => r.firstParent b = some a) := by
  obtain ⟨pre, hrev, hh1, hlt, hpw, hpre⟩ := revList_valid_ne r hv hne
  have hnhpre : nh ∈ pre := List.mem_of_mem_head? (by simp [hh1])
  refine ⟨?_, ?_, ?_, ?_, ?_⟩
  · rw [hrev]
    exact List.mem_reverse.mpr hnhpre
  · rw [hrev]
    intro hc
    have := hlt nb (List.mem_reverse.mp hc)
    omega
  · rw [hrev]
    exact List.pairwise_reverse.mpr hpw
  · rw [hrev, List.getLast?_reverse]
    exact hh1
  · have hch := r.fpChain_chain nh
    rw [hpre] at hch
    obtain ⟨tb, htb⟩ : ∃ t, r.fpChain nb = nb :: t := by
      rw [Repo.fpChain_eq]; exact ⟨_, rfl⟩
    rw [htb] at hch
    have hassoc : pre ++ nb :: tb = (pre ++ [nb]) ++ tb := by simp
    rw [hassoc] at hch
    have hch2 := (List.chain'_append.mp hch).1
    rw [hrev]
    have hrw : nb :: pre.reverse = (pre ++ [nb]).reverse := by simp
    rw [hrw, List.chain'_reverse]
    exact hch2

/-- Closed instance of C3's amended statement on the linear graph. -/
theorem c3_enumeration_amended_witness :
    2 ∈ repoLinear.revListThreeDotFP 0 2 ∧
    0 ∉ repoLinear.revListThreeDotFP 0 2 ∧
    (repoLinear.revListThreeDotFP 0 2).Pairwise (fun a b => a < b) ∧
    (repoLinear.revListThreeDotFP 0 2).getLast? = some 2 ∧
    (0 :: repoLinear.revListThreeDotFP 0 2).Chain'
      (fun a b => repoLinear.firstParent b = some a) :=
  c3_enumeration_amended repoLinear 0 2 (by decide) (by decide)

/-- Claim C4 (code bug): when base and head are identical, the real
rev-list output is empty (the model enumeration of the valid range (2,2)
is `[]`), but `getCommitList` splits the trimmed empty stdout into `[""]`
— one bogus empty-string revision, not an empty sequence.  The loop
therefore runs one iteration and checks out the empty string, which git
rejects, so the run fails with exactly the seed commit in the mirror,
instead of the spec's seed-only successful run with zero iterations. -/
theorem c4_empty_range_bug :
    repoLinear.mergeBaseFP 2 2 = some 2 ∧
    repoLinear.revListThreeDotFP 2 2 = [] ∧
    getCommitList wEmptyRange = [""] ∧
    Event.checkoutEv "" ∈ (run wEmptyRange (some prSame)).events ∧
    (run wEmptyRange (some prSame)).outcome =
      Outcome.failed "fatal: empty string is not a valid pathspec" ∧
    (run wEmptyRange (some prSame)).mirror =
      some [MirrorCommit.mk "c2" "main - abc123 first log line"] := by decide

/-- Claim C2: a successful run's mirror history is the seed commit for the
base followed by one commit per enumerated revision, in enumeration order
— so its length is `1 + |CommitSequence|`, the first commit corresponds to
the base, and (on a validated range linked to the commit graph) the last
corresponds to the head.  When base equals head the real enumeration
output is empty and the checkout of the bogus empty-string entry fails, so
no successful run exists there (second conjunct). -/
theorem c2_mirror_history (w : World) (pr : PRContext) (r : Repo)
    (sha : Nat → String) (nb nh : Nat) (info : String) :
    (r.mergeBaseFP nb nh = some nb → nb ≠ nh →
     pr.baseSha = sha nb → pr.headSha = sha nh →
     getCommitList w = (r.revListThreeDotFP nb nh).map sha →
     (run w (some pr)).outcome = Outcome.success info →
     ∃ ms, (run w (some pr)).mirror = some ms ∧
       ms.length = 1 + (getCommitList w).length ∧
       ms.map MirrorCommit.srcRev = pr.baseSha :: getCommitList w ∧
       (ms.map MirrorCommit.srcRev).head? = some pr.baseSha ∧
       (ms.map MirrorCommit.srcRev).getLast? = some pr.headSha) ∧
    (w.revListStdout = "" → w.checkoutRes "" ≠ Except.ok () →
     (run w (some pr)).outcome ≠ Outcome.success info) := by
  constructor
  · intro hv hne hbase hheadsha hList hsucc
    obtain ⟨_, hmir, _⟩ := run_success_char w pr info hsucc
    have hsrc :
        (((pr.baseSha :: getCommitList w).map
          (fun c => MirrorCommit.mk c (getPrettyCommitMessage w c))).map
            MirrorCommit.srcRev) = pr.baseSha :: getCommitList w := by
      rw [List.map_map]
      have hcomp : (MirrorCommit.srcRev ∘
          fun c => MirrorCommit.mk c (getPrettyCommitMessage w c)) =
            fun c : String => c := rfl
      rw [hcomp, List.map_id']
    refine ⟨_, hmir, ?_, hsrc, ?_, ?_⟩
    · simp only [List.length_map, List.length_cons]
      omega
    · rw [hsrc]
      rfl
    · rw [hsrc]
      obtain ⟨pre, hrev, hh1, hlt, hpw, hpre⟩ := revList_valid_ne r hv hne
      have hLlast : (getCommitList w).getLast? = some pr.headSha := by
        rw [hList, List.getLast?_map, hrev, List.getLast?_reverse, hh1,
          hheadsha]
        rfl
      cases hL2 : getCommitList w with
      | nil => rw [hL2] at hLlast; simp at hLlast
      | cons a t =>
        rw [hL2] at hLlast
        rw [List.getLast?_cons_cons]
        exact hLlast
  · intro hstd hck hsucc
    obtain ⟨⟨lms, levs, hloop⟩, _, _⟩ := run_success_char w pr info hsucc
    obtain ⟨_, _, hckall⟩ := runLoop_ok w (getCommitList w) 1 lms levs hloop
    have hempty : getCommitList w = [""] := by
      unfold getCommitList
      rw [hstd]
      decide
    exact hck (hckall "" (by rw [hempty]; exact List.mem_singleton.mpr rfl))

/-- Closed instance of C2 on the linear graph's validated range 0..2. -/
theorem c2_mirror_history_witness :
    (∃ ms, (run wOk (some prOk)).mirror = some ms ∧
      ms.length = 1 + (getCommitList wOk).length ∧
      ms.map MirrorCommit.srcRev = prOk.baseSha :: getCommitList wOk ∧
      (ms.map MirrorCommit.srcRev).head? = some prOk.baseSha ∧
      (ms.map MirrorCommit.srcRev).getLast? = some prOk.headSha) ∧
    (run wEmptyRange (some prSame)).outcome ≠
      Outcome.success "Finished config export. m0 to m0" :=
  ⟨(c2_mirror_history wOk prOk repoLinear shaOf 0 2
      "Finished config export. m0 to m0").1 (by decide) (by decide) rfl rfl
    (by decide) (by decide),
   (c2_mirror_history wEmptyRange prSame repoLinear shaOf 2 2
      "Finished config export. m0 to m0").2 rfl
    (fun h => Except.noConfusion h)⟩

/-- Claim C5: an export invocation performs clear, transform, stage,
commit, exactly in that order on success; each step's command is issued
only after all previous ones succeeded; the transformer is attempted at
most once per invocation; and a non-zero transformer exit fails the
export immediately after its two issued commands — at the pipeline level,
a seed-transformer failure fails the whole run with that error, with the
transformer having run exactly once and the mirror left without commits,
and a loop-head transformer failure stops the loop the same way. -/
theorem c5_export_steps (w : World) (n : Nat) (msg : String) :
    ((exportConf w n msg).1 = Except.ok () →
       (exportConf w n msg).2 =
         [Event.clearStep n, Event.transformStep n, Event.stageStep n,
          Event.commitStep n msg]) ∧
    (Event.transformStep n ∈ (exportConf w n msg).2 →
       w.rmRes n = Except.ok () ∧ ∃ p, pythonLookup w = Except.ok p) ∧
    (Event.stageStep n ∈ (exportConf w n msg).2 →
       w.rmRes n = Except.ok () ∧ w.transformRes n = Except.ok ()) ∧
    (Event.commitStep n msg ∈ (exportConf w n msg).2 →
       w.rmRes n = Except.ok () ∧ w.transformRes n = Except.ok () ∧
         w.addRes n = Except.ok ()) ∧
    ((exportConf w n msg).2.count (Event.transformStep n) ≤ 1) ∧
    (∀ e p, w.rmRes n = Except.ok () → pythonLookup w = Except.ok p →
       w.transformRes n = Except.error e →
       exportConf w n msg =
         (Except.error e, [Event.clearStep n, Event.transformStep n])) ∧
    (∀ c rest k e p, w.checkoutRes c = Except.ok () →
       w.rmRes k = Except.ok () → pythonLookup w = Except.ok p →
       w.transformRes k = Except.error e →
       (runLoop w (c :: rest) k).1 = Except.error e ∧
       (runLoop w (c :: rest) k).2.2.count (Event.transformStep k) = 1) ∧
    (∀ pr e p, pr.merged = false → pr.baseSha ≠ "" → pr.headSha ≠ "" →
       w.setupRes = Except.ok () → w.fetchRes = Except.ok () →
       w.mergeBaseRes = Except.ok pr.baseSha → w.initRes = Except.ok () →
       w.rmRes 0 = Except.ok () → pythonLookup w = Except.ok p →
       w.transformRes 0 = Except.error e →
       (run w (some pr)).outcome = Outcome.failed e ∧
       (run w (some pr)).events.count (Event.transformStep 0) = 1 ∧
       (run w (some pr)).mirror = some []) := by
  refine ⟨?_, exportConf_transform_mem w n msg, exportConf_stage_mem w n msg,
    exportConf_commit_mem w n msg, exportConf_transform_count w n msg,
    ?_, ?_, ?_⟩
  · intro h
    have := exportConf_fst_ok w n msg h
    rw [this]
    rfl
  · intro e p hrm hpy htf
    exact exportConf_transform_error w n msg e p hrm hpy htf
  · intro c rest k e p hck hrm hpy htf
    have hec := exportConf_transform_error w k
      (getPrettyCommitMessage w c) e p hrm hpy htf
    constructor
    · simp only [runLoop, hck, hec]
    · simp only [runLoop, hck, hec]
      simp [List.count_cons]
  · intro pr e p hm hb hh hs hf hmb hinit hrm hpy htf
    have hrun : run w (some pr) = runExports w pr :=
      run_gate w pr hm hb hh hs hf hmb hinit
    have hec := exportConf_transform_error w 0
      (getPrettyCommitMessage w pr.baseSha) e p hrm hpy htf
    rw [hrun]
    unfold runExports
    rw [hec]
    refine ⟨rfl, ?_, rfl⟩
    simp [preEvs, List.count_cons]

/-- Closed instance of C5: the four steps in order on an all-success
world, and a run failed by the transformer at the seed export. -/
theorem c5_export_steps_witness :
    (exportConf wOk 0 "m").2 =
      [Event.clearStep 0, Event.transformStep 0, Event.stageStep 0,
       Event.commitStep 0 "m"] ∧
    (run wTransformFail (some prOk)).outcome =
      Outcome.failed "exporter exited with code 1" ∧
    (run wTransformFail (some prOk)).events.count (Event.transformStep 0) = 1 ∧
    (run wTransformFail (some prOk)).mirror = some [] :=
  ⟨(c5_export_steps wOk 0 "m").1 rfl,
   ((c5_export_steps wTransformFail 0 "m").2.2.2.2.2.2.2 prOk
      "exporter exited with code 1" "/usr/bin/python2" rfl (by decide)
      (by decide) rfl rfl rfl rfl rfl rfl rfl).1,
   ((c5_export_steps wTransformFail 0 "m").2.2.2.2.2.2.2 prOk
      "exporter exited with code 1" "/usr/bin/python2" rfl (by decide)
      (by decide) rfl rfl rfl rfl rfl rfl rfl).2.1,
   ((c5_export_steps wTransformFail 0 "m").2.2.2.2.2.2.2 prOk
      "exporter exited with code 1" "/usr/bin/python2" rfl (by decide)
      (by decide) rfl rfl rfl rfl rfl rfl rfl).2.2⟩

/-- Claim C6: in a successful run, every mirror commit's message is
"<short-ref-name> - <abbreviated-id> <first-log-line>", the parts being the
source-tree queries evaluated at that commit's source revision (the
hypotheses state git's output shapes: each query output is already trimmed
and the oneline output is the abbreviated id, a space, and the first log
line); and the trace interleaves so that each loop iteration checks the
revision out, then derives the message, then runs the export steps —
conjunct three spells out that per-iteration order. -/
theorem c6_commit_message (w : World) (pr : PRContext) (info : String)
    (hsucc : (run w (some pr)).outcome = Outcome.success info)
    (hfmtRef : ∀ rev, jsTrim (w.abbrevRef rev) = w.abbrevRef rev)
    (hfmtLog : ∀ rev, jsTrim (w.logOneline rev) = w.logOneline rev)
    (hshape : ∀ rev, w.logOneline rev =
        w.abbrevId rev ++ " " ++ w.firstLine rev) :
    (run w (some pr)).mirror =
      some ((pr.baseSha :: getCommitList w).map
        (fun c => MirrorCommit.mk c
          (w.abbrevRef c ++ " - " ++ (w.abbrevId c ++ " " ++ w.firstLine c)))) ∧
    (run w (some pr)).events =
      preEvs pr ++ Event.prettyEv pr.baseSha ::
        (exportEvsOk 0 (getPrettyCommitMessage w pr.baseSha) ++
         Event.revListEv pr.baseSha pr.headSha ::
           loopEvsOk w (getCommitList w) 1) ∧
    (∀ c rest k, loopEvsOk w (c :: rest) k =
       Event.checkoutEv c :: Event.prettyEv c ::
         (exportEvsOk k (getPrettyCommitMessage w c) ++
          loopEvsOk w rest (k + 1))) := by
  obtain ⟨_, hmir, hevs⟩ := run_success_char w pr info hsucc
  refine ⟨?_, hevs, fun c rest k => rfl⟩
  rw [hmir]
  congr 1
  apply List.map_congr_left
  intro c _
  unfold getPrettyCommitMessage
  rw [hfmtRef, hfmtLog, hshape]

/-- Closed instance of C6 on the all-success world. -/
theorem c6_commit_message_witness :
    (run wOk (some prOk)).mirror =
      some ((prOk.baseSha :: getCommitList wOk).map
        (fun c => MirrorCommit.mk c
          (wOk.abbrevRef c ++ " - " ++
            (wOk.abbrevId c ++ " " ++ wOk.firstLine c)))) ∧
    (run wOk (some prOk)).events =
      preEvs prOk ++ Event.prettyEv prOk.baseSha ::
        (exportEvsOk 0 (getPrettyCommitMessage wOk prOk.baseSha) ++
         Event.revListEv prOk.baseSha prOk.headSha ::
           loopEvsOk wOk (getCommitList wOk) 1) ∧
    (∀ c rest k, loopEvsOk wOk (c :: rest) k =
       Event.checkoutEv c :: Event.prettyEv c ::
         (exportEvsOk k (getPrettyCommitMessage wOk c) ++
          loopEvsOk wOk rest (k + 1))) :=
  c6_commit_message wOk prOk "Finished config export. m0 to m0" (by decide)
    (by intro rev; show jsTrim "main" = "main"; decide)
    (by intro rev
        show jsTrim "abc123 first log line" = "abc123 first log line"
        decide)
    (by intro rev
        show "abc123 first log line" = "abc123" ++ " " ++ "first log line"
        decide)

/-- Claim C8: the post phase removes both working-tree directories —
source first, then mirror, the second attempt made even if the first
failed; every removal failure is only collected as a warning (when both
removals succeed there are none), the phase always completes normally,
and it is the same whatever the main phase's input or outcome was (last
conjunct), running exactly once after the main phase in the modelled
runner lifecycle. -/
theorem c8_teardown (w : World) (prCtx : Option PRContext) :
    (lifecycle w prCtx).2 =
      PhaseResult.postPhase [Event.removeSourceDir, Event.removeMirrorDir]
        (cleanup w).2 ∧
    (∀ e, w.removeSourceRes = Except.error e → e ∈ (cleanup w).2) ∧
    (∀ e, w.removeMirrorRes = Except.error e → e ∈ (cleanup w).2) ∧
    (w.removeSourceRes = Except.ok () → w.removeMirrorRes = Except.ok () →
       (cleanup w).2 = []) ∧
    (∀ w2 pr2, w2.removeSourceRes = w.removeSourceRes →
       w2.removeMirrorRes = w.removeMirrorRes →
       (lifecycle w2 pr2).2 = (lifecycle w prCtx).2) := by
  refine ⟨?_, ?_, ?_, ?_, ?_⟩
  · cases hs : w.removeSourceRes with
    | error e =>
      cases hm2 : w.removeMirrorRes with
      | error e2 => simp [lifecycle, entry, cleanup, tryRemove, hs, hm2]
      | ok u => simp [lifecycle, entry, cleanup, tryRemove, hs, hm2]
    | ok u =>
      cases hm2 : w.removeMirrorRes with
      | error e2 => simp [lifecycle, entry, cleanup, tryRemove, hs, hm2]
      | ok u2 => simp [lifecycle, entry, cleanup, tryRemove, hs, hm2]
  · intro e he
    cases hm2 : w.removeMirrorRes with
    | error e2 => simp [cleanup, tryRemove, he, hm2]
    | ok u => simp [cleanup, tryRemove, he, hm2]
  · intro e he
    cases hs : w.removeSourceRes with
    | error e2 => simp [cleanup, tryRemove, he, hs]
    | ok u => simp [cleanup, tryRemove, he, hs]
  · intro hs hm2
    simp [cleanup, tryRemove, hs, hm2]
  · intro w2 pr2 h1 h2
    simp [lifecycle, entry, cleanup, tryRemove, h1, h2]

/-- Closed instance of C8: both removals fail; both directories were still
attempted, both failures are warnings, and the phase result is normal. -/
theorem c8_teardown_witness :
    (lifecycle wCleanupFail (some prOk)).2 =
      PhaseResult.postPhase [Event.removeSourceDir, Event.removeMirrorDir]
        (cleanup wCleanupFail).2 ∧
    "failed to remove source tree" ∈ (cleanup wCleanupFail).2 ∧
    "failed to remove mirror tree" ∈ (cleanup wCleanupFail).2 :=
  ⟨(c8_teardown wCleanupFail (some prOk)).1,
   (c8_teardown wCleanupFail (some prOk)).2.1 _ rfl,
   (c8_teardown wCleanupFail (some prOk)).2.2.1 _ rfl⟩

end ConfigExport
